import Mathlib

/-!
Shallow embedding of the core of `prime-spirals-3d` (src/src/App.tsx):
the prime sieve, the four geometry generators, the 3D-to-2D projector,
the scene builder and the pointer/wheel interaction handlers.
Real-number arithmetic of the source (JS doubles) is modelled over `ℝ`.
-/

/- -------------------- Prime sieve (sievePrimes, App.tsx lines 22-31) -------------------- -/

/-- Initial sieve array: `new Array(limit+1).fill(true)` with indices 0 and 1
set to `false`, viewed as its lookup function on indices. -/
def sieveInit : ℕ → Bool := fun n => decide (2 ≤ n)

/-- Inner loop of the sieve for a fixed `p`: `for (i = p*p; i <= limit; i += p)
sieve[i] = false`, i.e. every index `n ≤ limit` that is a multiple of `p` with
`p*p ≤ n` is cleared. -/
def sieveMark (limit p : ℕ) (s : ℕ → Bool) : ℕ → Bool :=
  fun n => if p * p ≤ n ∧ n ≤ limit ∧ p ∣ n then false else s n

/-- Outer loop of the sieve: `eratosLoop limit k` is the sieve array after the
loop `for (p = 2; p <= k; p++) if (sieve[p]) mark multiples of p` has run. -/
def eratosLoop (limit : ℕ) : ℕ → (ℕ → Bool)
  | 0 => sieveInit
  | k + 1 =>
    let s := eratosLoop limit k
    if 2 ≤ k + 1 then (if s (k + 1) then sieveMark limit (k + 1) s else s) else s

/-- `sievePrimes(limit)`: returns `[]` when `limit < 2`; otherwise runs the
sieve with upper bound `Math.floor(Math.sqrt(limit))` and collects the indices
whose flag is still set (the source's `map`/`filter(n => n > 0)` keeps exactly
the indices `i` with `sieve[i]` true, since indices 0 and 1 are false). -/
def sievePrimes (limit : ℤ) : List ℕ :=
  if limit < 2 then []
  else
    let l := limit.toNat
    (List.range (l + 1)).filter (eratosLoop l (Nat.sqrt l))

/- -------------------- Geometry generators (App.tsx lines 34-76) -------------------- -/

/-- `interface Point3D { n; x; y; z }`. -/
structure Point3D where
  n : ℕ
  x : ℝ
  y : ℝ
  z : ℝ

/-- `coordsHelix(N, stepAngle, radius, pitch)`: for `n = 1..N`,
`t = n·stepAngle`, point `(radius·cos t, radius·sin t, pitch·t)`. -/
noncomputable def coordsHelix (N : ℕ) (stepAngle radius pitch : ℝ) : List Point3D :=
  (List.range N).map fun k =>
    let n : ℕ := k + 1
    let t := (n : ℝ) * stepAngle
    ⟨n, radius * Real.cos t, radius * Real.sin t, pitch * t⟩

/-- `coordsSphericalSpiral(N, stepAngle)`: for `n = 1..N`,
`z = 2(n-1)/max(N-1,1) - 1`, `r = sqrt(max(0, 1 - z²))`, `θ = n·stepAngle`. -/
noncomputable def coordsSphericalSpiral (N : ℕ) (stepAngle : ℝ) : List Point3D :=
  (List.range N).map fun k =>
    let n : ℕ := k + 1
    let z := 2.0 * ((n : ℝ) - 1) / max ((N : ℝ) - 1) 1 - 1.0
    let r := Real.sqrt (max 0 (1 - z * z))
    let theta := (n : ℝ) * stepAngle
    ⟨n, r * Real.cos theta, r * Real.sin theta, z⟩

/-- `coordsConicalArchimedean(N, stepAngle, a, b, c)`: for `n = 1..N`,
`t = n·stepAngle`, `r = a + b·t`, point `(r·cos t, r·sin t, c·t)`. -/
noncomputable def coordsConicalArchimedean (N : ℕ) (stepAngle a b c : ℝ) : List Point3D :=
  (List.range N).map fun k =>
    let n : ℕ := k + 1
    let t := (n : ℝ) * stepAngle
    let r := a + b * t
    ⟨n, r * Real.cos t, r * Real.sin t, c * t⟩

/-- `coordsLayeredTime(N, blockSize, layerRadius, stepAngle)`: with
`safe = max(blockSize, 1)`, for `n = 1..N`, `layer = ⌊(n-1)/safe⌋` and
`idxInLayer = (n-1) % safe`; since `n - 1 ≥ 0` and `safe ≥ 1`, the JS `%`
equals `(n-1) - safe·⌊(n-1)/safe⌋`. `θ = idxInLayer·stepAngle`, point
`(layerRadius·cos θ, layerRadius·sin θ, layer)`. -/
noncomputable def coordsLayeredTime (N : ℕ) (blockSize layerRadius stepAngle : ℝ) :
    List Point3D :=
  let safe := max blockSize 1
  (List.range N).map fun k =>
    let n : ℕ := k + 1
    let layer : ℤ := ⌊((n : ℝ) - 1) / safe⌋
    let idxInLayer := ((n : ℝ) - 1) - safe * (layer : ℝ)
    let theta := idxInLayer * stepAngle
    ⟨n, layerRadius * Real.cos theta, layerRadius * Real.sin theta, (layer : ℝ)⟩

/- -------------------- Projector (App.tsx lines 175-186) -------------------- -/

/-- The camera rotation state `rotation = { x, y }`. -/
structure Camera where
  rotationX : ℝ
  rotationY : ℝ

/-- Return value of `project`: `{ x: screenX, y: screenY, z: depth, p: persp }`. -/
structure Projected where
  x : ℝ
  y : ℝ
  z : ℝ
  p : ℝ

/-- `project(pt)` closed over `width`, `height`, `zoom`, `rotation` and
`perspective`. -/
noncomputable def project (width height zoom : ℝ) (rotation : Camera)
    (perspective : Bool) (pt : Point3D) : Projected :=
  let cx := width / 2
  let cy := height / 2
  let scale := min width height * 0.12 * zoom
  let cosX := Real.cos rotation.rotationX
  let sinX := Real.sin rotation.rotationX
  let cosY := Real.cos rotation.rotationY
  let sinY := Real.sin rotation.rotationY
  let y1 := pt.y * cosX - pt.z * sinX
  let z1 := pt.y * sinX + pt.z * cosX
  let x2 := pt.x * cosY + z1 * sinY
  let z2 := -pt.x * sinY + z1 * cosY
  let persp := if perspective then 1 / (1 + z2 * 0.1) else 1
  ⟨cx + x2 * scale * persp, cy + y1 * scale * persp, z2, persp⟩

/- -------------------- Scene builder (`projected`, App.tsx lines 189-200) -------------------- -/

/-- One entry of the `projected` array:
`{ x, y, z, n, r, prime }`. -/
structure RenderPt where
  x : ℝ
  y : ℝ
  z : ℝ
  n : ℕ
  r : ℝ
  prime : Bool

/-- Body of the loop in `projected`: project a point and build its render
record with radius `Math.max(1, dotSize * pr.p)`. -/
noncomputable def renderPoint (width height zoom : ℝ) (rotation : Camera)
    (perspective : Bool) (dotSize : ℝ) (primes : Finset ℕ) (p : Point3D) : RenderPt :=
  let pr := project width height zoom rotation perspective p
  ⟨pr.x, pr.y, pr.z, p.n, max 1 (dotSize * pr.p), decide (p.n ∈ primes)⟩

/-- The `projected` memo: skip points with `!prime && !showAllNumbers`,
build render records, sort ascending by `z` (`arr.sort((a, b) => a.z - b.z)`). -/
noncomputable def buildProjected (points : List Point3D) (primes : Finset ℕ)
    (width height zoom : ℝ) (rotation : Camera) (perspective : Bool)
    (dotSize : ℝ) (showAllNumbers : Bool) : List RenderPt :=
  let arr := (points.filter fun p => decide (p.n ∈ primes) || showAllNumbers).map
    (renderPoint width height zoom rotation perspective dotSize primes)
  arr.mergeSort fun a b => decide (a.z ≤ b.z)

/- -------------------- Interaction controller (App.tsx lines 102-172) -------------------- -/

/-- A pointer position `{ x: clientX, y: clientY }`. -/
structure Pos where
  x : ℝ
  y : ℝ

/-- `Math.hypot(dx, dy)`. -/
noncomputable def hypot (dx dy : ℝ) : ℝ := Real.sqrt (dx * dx + dy * dy)

/-- The mutable state of `Canvas3D` that the pointer/wheel handlers touch:
the `pointers` map (insertion-ordered, as a JS `Map` iterates), the drag flag,
`lastPos`, the pinch baseline `{ startDist, startZoom }`, and the camera. -/
structure CanvasState where
  pointers : List (ℕ × Pos)
  isDragging : Bool
  lastPos : Pos
  pinch : Option (ℝ × ℝ)
  rotation : Camera
  zoom : ℝ

/-- `pointers.current.set(id, pos)`: update in place when the key exists
(keeping its insertion position), else append. -/
def setPointer (m : List (ℕ × Pos)) (id : ℕ) (pos : Pos) : List (ℕ × Pos) :=
  if m.any fun e => e.1 == id then
    m.map fun e => if e.1 == id then (id, pos) else e
  else m ++ [(id, pos)]

/-- `pointers.current.delete(id)`. -/
def erasePointer (m : List (ℕ × Pos)) (id : ℕ) : List (ℕ × Pos) :=
  m.filter fun e => e.1 != id

/-- `onPointerDown`: record the contact; a first contact starts a drag, a
second contact records the pinch baseline from the first two map entries. -/
noncomputable def onPointerDown (st : CanvasState) (id : ℕ) (pos : Pos) : CanvasState :=
  let ptrs := setPointer st.pointers id pos
  if ptrs.length == 1 then
    { st with pointers := ptrs, isDragging := true, lastPos := pos }
  else if ptrs.length == 2 then
    match ptrs with
    | a :: b :: _ =>
      let dx := a.2.x - b.2.x
      let dy := a.2.y - b.2.y
      { st with pointers := ptrs, pinch := some (hypot dx dy, st.zoom) }
    | _ => { st with pointers := ptrs }
  else { st with pointers := ptrs }

/-- `onPointerMove`: ignore unknown pointers; with one contact and the drag
flag, rotate by `0.01` per pixel of delta since `lastPos`; with two contacts
and a pinch baseline, set
`zoom = max(0.1, min(5, startZoom * (dist / max(1, startDist))))`. -/
noncomputable def onPointerMove (st : CanvasState) (id : ℕ) (pos : Pos) : CanvasState :=
  if st.pointers.any fun e => e.1 == id then
    let ptrs := setPointer st.pointers id pos
    if ptrs.length == 1 && st.isDragging then
      let dx := pos.x - st.lastPos.x
      let dy := pos.y - st.lastPos.y
      { st with
        pointers := ptrs
        lastPos := pos
        rotation := ⟨st.rotation.rotationX + dy * 0.01, st.rotation.rotationY + dx * 0.01⟩ }
    else if ptrs.length == 2 then
      match st.pinch with
      | some (startDist, startZoom) =>
        match ptrs with
        | a :: b :: _ =>
          let dx := a.2.x - b.2.x
          let dy := a.2.y - b.2.y
          let dist := hypot dx dy
          let factor := dist / max 1 startDist
          { st with pointers := ptrs, zoom := max 0.1 (min 5 (startZoom * factor)) }
        | _ => { st with pointers := ptrs }
      | none => { st with pointers := ptrs }
    else { st with pointers := ptrs }
  else st

/-- `onPointerUp`: drop the contact; below two contacts the pinch baseline
clears, at zero contacts the drag flag clears. -/
def onPointerUp (st : CanvasState) (id : ℕ) : CanvasState :=
  let ptrs := erasePointer st.pointers id
  let st1 := { st with pointers := ptrs }
  let st2 := if ptrs.length < 2 then { st1 with pinch := none } else st1
  if ptrs.length == 0 then { st2 with isDragging := false } else st2

/-- `onWheel`: `k = ctrlKey ? 0.0025 : 0.001`;
`zoom = max(0.1, min(5, zoom + (-deltaY) * k))`. -/
noncomputable def onWheel (st : CanvasState) (deltaY : ℝ) (ctrlKey : Bool) : CanvasState :=
  let k : ℝ := if ctrlKey then 0.0025 else 0.001
  { st with zoom := max 0.1 (min 5 (st.zoom + -deltaY * k)) }

/-- One pointer/wheel event. -/
inductive Event where
  | down (id : ℕ) (pos : Pos)
  | move (id : ℕ) (pos : Pos)
  | up (id : ℕ)
  | wheel (deltaY : ℝ) (ctrl : Bool)

/-- Dispatch of one event to its handler. -/
noncomputable def stepEvent (st : CanvasState) : Event → CanvasState
  | .down id pos => onPointerDown st id pos
  | .move id pos => onPointerMove st id pos
  | .up id => onPointerUp st id
  | .wheel d c => onWheel st d c

/-- A finite sequence of events applied in order. -/
noncomputable def runEvents (st : CanvasState) (es : List Event) : CanvasState :=
  es.foldl stepEvent st

/- ==================== Theorems ==================== -/

/-- Characterization of the sieve array after the outer loop has processed
`p = 2..k`: an index is cleared exactly when it is below 2 or has a prime
factor `q ≤ k` with `q² ≤ n` and `n ≤ limit`. -/
theorem eratosLoop_eq_false_iff (limit : ℕ) : ∀ (k n : ℕ),
    eratosLoop limit k n = false ↔
      n < 2 ∨ ∃ q, Nat.Prime q ∧ q ≤ k ∧ q ∣ n ∧ q * q ≤ n ∧ n ≤ limit := by
  intro k
  induction k with
  | zero =>
    intro n
    simp only [eratosLoop, sieveInit, decide_eq_false_iff_not, Nat.not_le]
    constructor
    · exact fun h => Or.inl h
    · rintro (h | ⟨q, hq, hq0, -⟩)
      · exact h
      · exact absurd (Nat.le_zero.mp hq0 ▸ hq) Nat.not_prime_zero
  | succ k ih =>
    intro n
    simp only [eratosLoop]
    by_cases hk : 2 ≤ k + 1
    · rw [if_pos hk]
      by_cases hsp : eratosLoop limit k (k + 1) = true
      · rw [if_pos hsp]
        by_cases hc : (k + 1) * (k + 1) ≤ n ∧ n ≤ limit ∧ (k + 1) ∣ n
        · -- the mark fires: n is cleared; k+1 must be prime
          have hplim : k + 1 ≤ limit := le_trans (Nat.le_mul_of_pos_left _ (by omega)) (le_trans hc.1 hc.2.1)
          have hprime : Nat.Prime (k + 1) := by
            by_contra hnp
            have hmf := Nat.minFac_prime (show k + 1 ≠ 1 by omega)
            have hdvd := Nat.minFac_dvd (k + 1)
            have hsq : Nat.minFac (k + 1) * Nat.minFac (k + 1) ≤ k + 1 := by
              have := Nat.minFac_sq_le_self (show 0 < k + 1 by omega) hnp
              nlinarith [this]
            have hle : Nat.minFac (k + 1) ≤ k := by
              have h1 : Nat.minFac (k + 1) ≤ Nat.sqrt (k + 1) := Nat.le_sqrt.mpr hsq
              have h2 : Nat.sqrt (k + 1) < k + 1 := Nat.sqrt_lt_self (by omega)
              omega
            have : eratosLoop limit k (k + 1) = false :=
              (ih (k + 1)).mpr (Or.inr ⟨_, hmf, hle, hdvd, hsq, hplim⟩)
            rw [this] at hsp
            exact absurd hsp (by simp)
          simp only [sieveMark, if_pos hc]
          simp only [true_iff]  -- placeholder; check goal
          exact Or.inr ⟨k + 1, hprime, le_refl _, hc.2.2, hc.1, hc.2.1⟩
        · simp only [sieveMark, if_neg hc]
          rw [ih n]
          constructor
          · rintro (h | ⟨q, hq, hqk, hdvd, hsq, hlim⟩)
            · exact Or.inl h
            · exact Or.inr ⟨q, hq, le_trans hqk (Nat.le_succ k), hdvd, hsq, hlim⟩
          · rintro (h | ⟨q, hq, hqk, hdvd, hsq, hlim⟩)
            · exact Or.inl h
            · rcases Nat.lt_or_ge q (k + 1) with hlt | hge
              · exact Or.inr ⟨q, hq, by omega, hdvd, hsq, hlim⟩
              · have hqe : q = k + 1 := by omega
                subst hqe
                exact absurd ⟨hsq, hlim, hdvd⟩ hc
      · rw [if_neg hsp]
        rw [ih n]
        have hspf : eratosLoop limit k (k + 1) = false := by
          cases h : eratosLoop limit k (k + 1)
          · rfl
          · exact absurd h hsp
        have hnotp : ¬ Nat.Prime (k + 1) := by
          intro hp
          rcases (ih (k + 1)).mp hspf with h | ⟨q, hq, hqk, hdvd, -, -⟩
          · omega
          · rcases hp.eq_one_or_self_of_dvd q hdvd with h1 | hqeq
            · exact absurd (h1 ▸ hq) (by norm_num)
            · omega
        constructor
        · rintro (h | ⟨q, hq, hqk, hdvd, hsq, hlim⟩)
          · exact Or.inl h
          · exact Or.inr ⟨q, hq, le_trans hqk (Nat.le_succ k), hdvd, hsq, hlim⟩
        · rintro (h | ⟨q, hq, hqk, hdvd, hsq, hlim⟩)
          · exact Or.inl h
          · rcases Nat.lt_or_ge q (k + 1) with hlt | hge
            · exact Or.inr ⟨q, hq, by omega, hdvd, hsq, hlim⟩
            · have : q = k + 1 := by omega
              exact absurd (this ▸ hq) hnotp
    · rw [if_neg hk]
      have hk0 : k = 0 := by omega
      subst hk0
      rw [ih n]
      constructor
      · rintro (h | ⟨q, hq, hq0, -⟩)
        · exact Or.inl h
        · exact absurd (Nat.le_zero.mp hq0 ▸ hq) Nat.not_prime_zero
      · rintro (h | ⟨q, hq, hq1, -⟩)
        · exact Or.inl h
        · have := hq.two_le; omega

/-- C1: for every integer limit, `sievePrimes(limit)` contains exactly the
`n ∈ [2, limit]` with no divisor `d ∈ [2, ⌊√n⌋]`, and every `limit < 2`
(including 0 and 1) yields the empty list. -/
theorem sievePrimes_spec (limit : ℤ) (n : ℕ) :
    (n ∈ sievePrimes limit ↔
      2 ≤ (n : ℤ) ∧ (n : ℤ) ≤ limit ∧ ∀ d : ℕ, 2 ≤ d → d ≤ Nat.sqrt n → ¬ d ∣ n) ∧
    (limit < 2 → sievePrimes limit = []) := by
  constructor
  · by_cases hl : limit < 2
    · simp only [sievePrimes, if_pos hl, List.not_mem_nil, false_iff]
      rintro ⟨h2, hle, -⟩
      omega
    · have hl2 : 2 ≤ limit := by omega
      have hcast : ((limit.toNat : ℤ)) = limit := Int.toNat_of_nonneg (by omega)
      simp only [sievePrimes, if_neg hl, List.mem_filter, List.mem_range, decide_eq_true_eq]
      constructor
      · rintro ⟨hn, hs⟩
        have hnl : n ≤ limit.toNat := by omega
        have hne : ¬ (n < 2 ∨ ∃ q, Nat.Prime q ∧ q ≤ Nat.sqrt limit.toNat ∧ q ∣ n ∧
            q * q ≤ n ∧ n ≤ limit.toNat) := by
          rw [← eratosLoop_eq_false_iff]
          simp [hs]
        push_neg at hne
        obtain ⟨hn2, hnoq⟩ := hne
        refine ⟨by exact_mod_cast hn2, by rw [← hcast]; exact_mod_cast hnl, ?_⟩
        intro d hd2 hdsqrt hdvd
        have hnp : ¬ Nat.Prime n := by
          intro hp
          rcases hp.eq_one_or_self_of_dvd d hdvd with h1 | hdn
          · omega
          · have := Nat.sqrt_lt_self (show 1 < n by omega)
            omega
        have hmfp := Nat.minFac_prime (show n ≠ 1 by omega)
        have hsq : Nat.minFac n * Nat.minFac n ≤ n := by
          have := Nat.minFac_sq_le_self (show 0 < n by omega) hnp
          nlinarith [this]
        have hmfs : Nat.minFac n ≤ Nat.sqrt limit.toNat :=
          le_trans (Nat.le_sqrt.mpr hsq) (Nat.sqrt_le_sqrt hnl)
        have := hnoq (Nat.minFac n) hmfp hmfs (Nat.minFac_dvd n) hsq
        omega
      · rintro ⟨h2, hle, hC⟩
        have hn2 : 2 ≤ n := by exact_mod_cast h2
        have hnl : n ≤ limit.toNat := by omega
        refine ⟨by omega, ?_⟩
        by_contra hbool
        have hf : eratosLoop limit.toNat (Nat.sqrt limit.toNat) n = false := by
          cases h : eratosLoop limit.toNat (Nat.sqrt limit.toNat) n
          · rfl
          · exact absurd h hbool
        rcases (eratosLoop_eq_false_iff limit.toNat (Nat.sqrt limit.toNat) n).mp hf with
          h | ⟨q, hq, hqs, hdvd, hsq, hlim⟩
        · omega
        · exact hC q hq.two_le (Nat.le_sqrt.mpr hsq) hdvd
  · intro h
    simp [sievePrimes, if_pos h]

/-- Witness for C1 at `limit = 1`. -/
theorem sievePrimes_spec_witness : sievePrimes 1 = [] :=
  (sievePrimes_spec 1 0).2 (by norm_num)

/-- C2: `project` computes the scale, the X-then-Y rotation, the optional
perspective factor, the screen coordinates and the depth exactly by the
specified formulas; with zero rotation, zoom 1 and perspective disabled it
reduces to `screenX = width/2 + x·scale`, `screenY = height/2 + y·scale`,
independent of `z`. -/
theorem project_spec (width height zoom rx ry : ℝ) (perspective : Bool) (pt : Point3D) :
    (project width height zoom ⟨rx, ry⟩ perspective pt =
      { x := width / 2 +
          (pt.x * Real.cos ry + (pt.y * Real.sin rx + pt.z * Real.cos rx) * Real.sin ry) *
            (min width height * 0.12 * zoom) *
            (if perspective then
              1 / (1 + (-pt.x * Real.sin ry +
                (pt.y * Real.sin rx + pt.z * Real.cos rx) * Real.cos ry) * 0.1)
            else 1)
        y := height / 2 + (pt.y * Real.cos rx - pt.z * Real.sin rx) *
            (min width height * 0.12 * zoom) *
            (if perspective then
              1 / (1 + (-pt.x * Real.sin ry +
                (pt.y * Real.sin rx + pt.z * Real.cos rx) * Real.cos ry) * 0.1)
            else 1)
        z := -pt.x * Real.sin ry + (pt.y * Real.sin rx + pt.z * Real.cos rx) * Real.cos ry
        p := if perspective then
              1 / (1 + (-pt.x * Real.sin ry +
                (pt.y * Real.sin rx + pt.z * Real.cos rx) * Real.cos ry) * 0.1)
            else 1 }) ∧
    (project width height 1 ⟨0, 0⟩ false pt =
      { x := width / 2 + pt.x * (min width height * 0.12 * 1)
        y := height / 2 + pt.y * (min width height * 0.12 * 1)
        z := pt.z
        p := 1 }) ∧
    (∀ z z' : ℝ,
      (project width height 1 ⟨0, 0⟩ false ⟨pt.n, pt.x, pt.y, z⟩).x =
        (project width height 1 ⟨0, 0⟩ false ⟨pt.n, pt.x, pt.y, z'⟩).x ∧
      (project width height 1 ⟨0, 0⟩ false ⟨pt.n, pt.x, pt.y, z⟩).y =
        (project width height 1 ⟨0, 0⟩ false ⟨pt.n, pt.x, pt.y, z'⟩).y) := by
  refine ⟨rfl, ?_, ?_⟩
  · simp only [project, Real.cos_zero, Real.sin_zero, if_false, Bool.false_eq_true,
      Projected.mk.injEq]
    refine ⟨by ring, by ring, by ring, trivial⟩
  · intro z z'
    constructor <;>
      simp only [project, Real.cos_zero, Real.sin_zero, if_false, Bool.false_eq_true] <;>
      ring

/-- C3: every generator, for every mode parameter set and every `N ≥ 0`,
emits the index sequence `1..N` in order (hence length exactly `N`, no gaps,
no duplicates) and its output is empty exactly when `N = 0`. -/
theorem generators_index_spec (N : ℕ)
    (stepAngle radius pitch a b c blockSize layerRadius : ℝ) :
    ((coordsHelix N stepAngle radius pitch).map Point3D.n =
        (List.range N).map (fun k => k + 1) ∧
      (coordsSphericalSpiral N stepAngle).map Point3D.n =
        (List.range N).map (fun k => k + 1) ∧
      (coordsConicalArchimedean N stepAngle a b c).map Point3D.n =
        (List.range N).map (fun k => k + 1) ∧
      (coordsLayeredTime N blockSize layerRadius stepAngle).map Point3D.n =
        (List.range N).map (fun k => k + 1)) ∧
    ((coordsHelix N stepAngle radius pitch).length = N ∧
      (coordsSphericalSpiral N stepAngle).length = N ∧
      (coordsConicalArchimedean N stepAngle a b c).length = N ∧
      (coordsLayeredTime N blockSize layerRadius stepAngle).length = N) ∧
    ((coordsHelix N stepAngle radius pitch = [] ↔ N = 0) ∧
      (coordsSphericalSpiral N stepAngle = [] ↔ N = 0) ∧
      (coordsConicalArchimedean N stepAngle a b c = [] ↔ N = 0) ∧
      (coordsLayeredTime N blockSize layerRadius stepAngle = [] ↔ N = 0)) := by
  refine ⟨⟨?_, ?_, ?_, ?_⟩, ⟨?_, ?_, ?_, ?_⟩, ⟨?_, ?_, ?_, ?_⟩⟩ <;>
    simp [coordsHelix, coordsSphericalSpiral, coordsConicalArchimedean,
      coordsLayeredTime, List.map_map, Function.comp, List.range_eq_nil]

/-- C10: the depth returned by `project` depends only on the point and the two
rotation angles; zoom, viewport dimensions and the perspective flag do not
affect it. -/
theorem project_depth_spec (pt : Point3D) (rx ry w1 h1 zm1 w2 h2 zm2 : ℝ)
    (p1 p2 : Bool) :
    (project w1 h1 zm1 ⟨rx, ry⟩ p1 pt).z = (project w2 h2 zm2 ⟨rx, ry⟩ p2 pt).z := rfl

/-- C4: the scene builder output is sorted non-decreasing by depth; it is a
permutation of the render records of exactly the retained points — all points
when `showAllNumbers` is true, exactly those with index in the prime set when
it is false — and every render record's radius is
`max(1, dotSize · perspectiveScale)`. -/
theorem buildProjected_spec (points : List Point3D) (primes : Finset ℕ)
    (width height zoom dotSize : ℝ) (rotation : Camera)
    (perspective showAllNumbers : Bool) :
    List.Pairwise (fun a b : RenderPt => a.z ≤ b.z)
      (buildProjected points primes width height zoom rotation perspective dotSize
        showAllNumbers) ∧
    (buildProjected points primes width height zoom rotation perspective dotSize
        showAllNumbers).Perm
      ((if showAllNumbers then points
        else points.filter fun p => decide (p.n ∈ primes)).map
        (renderPoint width height zoom rotation perspective dotSize primes)) ∧
    (∀ p : Point3D,
      (renderPoint width height zoom rotation perspective dotSize primes p).r =
        max 1 (dotSize * (project width height zoom rotation perspective p).p)) := by
  refine ⟨?_, ?_, fun p => rfl⟩
  · have hs := @List.sorted_mergeSort RenderPt
      (fun a b : RenderPt => decide (a.z ≤ b.z))
      (fun a b c h1 h2 => by
        simp only [decide_eq_true_eq] at h1 h2 ⊢
        exact le_trans h1 h2)
      (fun a b => by
        simp only [Bool.or_eq_true, decide_eq_true_eq]
        exact le_total a.z b.z)
      ((points.filter fun p => decide (p.n ∈ primes) || showAllNumbers).map
        (renderPoint width height zoom rotation perspective dotSize primes))
    exact hs.imp (by simp only [decide_eq_true_eq]; exact fun h => h)
  · have hperm := List.mergeSort_perm
      ((points.filter fun p => decide (p.n ∈ primes) || showAllNumbers).map
        (renderPoint width height zoom rotation perspective dotSize primes))
      (fun a b => decide (a.z ≤ b.z))
    refine hperm.trans (List.Perm.of_eq ?_)
    cases showAllNumbers
    · simp
    · simp

/-- C6 counterexample: at the point `(0, 0, -9)` with zero rotation and
perspective enabled, `project` returns perspective scale `10`, which lies
outside `[0.1, 5]` — the code never clamps the perspective scale. -/
theorem perspective_clamp_counterexample :
    (project 800 600 1 ⟨0, 0⟩ true ⟨1, 0, 0, -9⟩).p = 10 ∧
    ¬ ((0.1 : ℝ) ≤ (project 800 600 1 ⟨0, 0⟩ true ⟨1, 0, 0, -9⟩).p ∧
      (project 800 600 1 ⟨0, 0⟩ true ⟨1, 0, 0, -9⟩).p ≤ 5) := by
  have h : (project 800 600 1 ⟨0, 0⟩ true ⟨1, 0, 0, -9⟩).p = 10 := by
    simp only [project, Real.cos_zero, Real.sin_zero, if_true]
    norm_num
  rw [h]
  norm_num

/-- C6 (amended): the zoom factor entering the projection is clamped to
`[0.1, 5]` by the zoom-modifying handlers (shown for the wheel handler), but
the perspective scale computed by `project` is not clamped: it equals
`1/(1 + depth·0.1)` when perspective is enabled and `1` otherwise. -/
theorem perspective_scale_amended_spec (width height zoom : ℝ) (rotation : Camera)
    (perspective : Bool) (pt : Point3D) (st : CanvasState) (deltaY : ℝ) (ctrl : Bool) :
    (project width height zoom rotation perspective pt).p =
      (if perspective then
        1 / (1 + (project width height zoom rotation perspective pt).z * 0.1)
      else 1) ∧
    0.1 ≤ (onWheel st deltaY ctrl).zoom ∧ (onWheel st deltaY ctrl).zoom ≤ 5 := by
  refine ⟨rfl, le_max_left _ _, ?_⟩
  exact max_le (by norm_num) (min_le_left _ _)

/-- C7: degenerate generator inputs are normalized, not rejected. The
spherical generator at `N = 1` uses denominator `max(N-1,1) = 1` and yields
the single point `(0, 0, -1)` regardless of `θ`; every spherical point feeds
the square root the radicand `max(0, 1 - z²)`; the layered generator floors
`blockSize ≤ 0` to `1`; and with `blockSize = 200`, `n = 1` and `n = 200`
land in layer 0 while `n = 201` lands in layer 1 with `idxInLayer` reset
to 0. -/
theorem degenerate_inputs_spec (θ bs lr : ℝ) (N : ℕ) (hbs : bs ≤ 0) :
    coordsSphericalSpiral 1 θ = [⟨1, 0, 0, -1⟩] ∧
    (∀ p : Point3D, p ∈ coordsSphericalSpiral N θ →
      p.x = Real.sqrt (max 0 (1 - p.z * p.z)) * Real.cos ((p.n : ℝ) * θ) ∧
      p.y = Real.sqrt (max 0 (1 - p.z * p.z)) * Real.sin ((p.n : ℝ) * θ)) ∧
    coordsLayeredTime N bs lr θ = coordsLayeredTime N 1 lr θ ∧
    ((coordsLayeredTime 201 200 lr θ).get ⟨0, by simp [coordsLayeredTime]⟩).z = 0 ∧
    ((coordsLayeredTime 201 200 lr θ).get ⟨199, by simp [coordsLayeredTime]⟩).z = 0 ∧
    (coordsLayeredTime 201 200 lr θ).get ⟨200, by simp [coordsLayeredTime]⟩ =
      ⟨201, lr, 0, 1⟩ := by
  refine ⟨?_, ?_, ?_, ?_, ?_, ?_⟩
  · simp only [coordsSphericalSpiral, List.range_succ, List.range_zero, List.nil_append,
      List.map_cons, List.map_nil]
    norm_num [Real.sqrt_zero]
  · intro p hp
    simp only [coordsSphericalSpiral, List.mem_map] at hp
    obtain ⟨k, -, rfl⟩ := hp
    exact ⟨rfl, rfl⟩
  · have hmax : max bs 1 = 1 := max_eq_right (le_trans hbs zero_le_one)
    simp only [coordsLayeredTime, hmax, max_self]
  · simp only [coordsLayeredTime, List.get_eq_getElem, List.getElem_map,
      List.getElem_range]
    norm_num
  · simp only [coordsLayeredTime, List.get_eq_getElem, List.getElem_map,
      List.getElem_range]
    norm_num
  · simp only [coordsLayeredTime, List.get_eq_getElem, List.getElem_map,
      List.getElem_range]
    norm_num

/-- Witness for C7 at `θ = 0`, `bs = 0`, `lr = 0`, `N = 0`. -/
theorem degenerate_inputs_spec_witness :
    (0 : ℝ) ≤ 0 ∧ coordsLayeredTime 0 0 0 0 = coordsLayeredTime 0 1 0 0 :=
  ⟨le_refl 0, (degenerate_inputs_spec 0 0 0 0 (le_refl 0)).2.2.1⟩

/-- Every event either leaves the zoom unchanged or sets it to a value of the
clamped form `max 0.1 (min 5 x)`. -/
theorem stepEvent_zoom (st : CanvasState) (e : Event) :
    (stepEvent st e).zoom = st.zoom ∨
    ∃ x : ℝ, (stepEvent st e).zoom = max 0.1 (min 5 x) := by
  cases e with
  | down id pos =>
    left
    simp only [stepEvent, onPointerDown]
    repeat' split
    all_goals rfl
  | move id pos =>
    simp only [stepEvent, onPointerMove]
    repeat' split
    all_goals first
      | (left; rfl)
      | (right; exact ⟨_, rfl⟩)
  | up id =>
    left
    simp only [stepEvent, onPointerUp]
    repeat' split
    all_goals rfl
  | wheel d c =>
    right
    exact ⟨_, rfl⟩

/-- C8: starting from any zoom in `[0.1, 5]`, the zoom after any finite
sequence of pointer/wheel events — in particular wheel events and pinch move
events — remains in `[0.1, 5]`. -/
theorem zoom_invariant (st : CanvasState) (es : List Event)
    (h1 : 0.1 ≤ st.zoom) (h2 : st.zoom ≤ 5) :
    0.1 ≤ (runEvents st es).zoom ∧ (runEvents st es).zoom ≤ 5 := by
  induction es generalizing st with
  | nil => exact ⟨h1, h2⟩
  | cons e es ih =>
    have hstep : runEvents st (e :: es) = runEvents (stepEvent st e) es := rfl
    rw [hstep]
    rcases stepEvent_zoom st e with h | ⟨x, hx⟩
    · exact ih (stepEvent st e) (h ▸ h1) (h ▸ h2)
    · exact ih (stepEvent st e) (hx ▸ le_max_left _ _)
        (hx ▸ max_le (by norm_num) (min_le_left _ _))

/-- Witness for C8: zoom 1 with a single wheel event. -/
theorem zoom_invariant_witness :
    (0.1 : ℝ) ≤ 1 ∧ (1 : ℝ) ≤ 5 ∧
    (0.1 ≤ (runEvents ⟨[], false, ⟨0, 0⟩, none, ⟨0, 0⟩, 1⟩
        [Event.wheel 100 false]).zoom ∧
      (runEvents ⟨[], false, ⟨0, 0⟩, none, ⟨0, 0⟩, 1⟩
        [Event.wheel 100 false]).zoom ≤ 5) :=
  ⟨by norm_num, by norm_num,
    zoom_invariant ⟨[], false, ⟨0, 0⟩, none, ⟨0, 0⟩, 1⟩ [Event.wheel 100 false]
      (by norm_num) (by norm_num)⟩

/-- C9: during a single-contact drag, a move event with pointer delta
`(dx, dy)` since the last move adds `dy·0.01` to `rotationX` and `dx·0.01` to
`rotationY`, and records the new position as `lastPos`. -/
theorem drag_rotation_spec (st : CanvasState) (id : ℕ) (p₀ pos : Pos)
    (hptr : st.pointers = [(id, p₀)]) (hdrag : st.isDragging = true) :
    (onPointerMove st id pos).rotation =
      ⟨st.rotation.rotationX + (pos.y - st.lastPos.y) * 0.01,
        st.rotation.rotationY + (pos.x - st.lastPos.x) * 0.01⟩ ∧
    (onPointerMove st id pos).lastPos = pos := by
  simp [onPointerMove, setPointer, hptr, hdrag]

/-- Witness for C9, the spec's concrete example: from rotation `(0,0)`, a drag
move of `(dx, dy) = (10, -20)` yields rotation `(x: -0.2, y: 0.1)`. -/
theorem drag_rotation_spec_witness :
    (onPointerDown ⟨[], false, ⟨0, 0⟩, none, ⟨0, 0⟩, 1⟩ 0 ⟨0, 0⟩).pointers =
      [(0, ⟨0, 0⟩)] ∧
    (onPointerDown ⟨[], false, ⟨0, 0⟩, none, ⟨0, 0⟩, 1⟩ 0 ⟨0, 0⟩).isDragging = true ∧
    (onPointerMove (onPointerDown ⟨[], false, ⟨0, 0⟩, none, ⟨0, 0⟩, 1⟩ 0 ⟨0, 0⟩)
        0 ⟨10, -20⟩).rotation = ⟨-0.2, 0.1⟩ := by
  refine ⟨rfl, rfl, ?_⟩
  have h := (drag_rotation_spec
    (onPointerDown ⟨[], false, ⟨0, 0⟩, none, ⟨0, 0⟩, 1⟩ 0 ⟨0, 0⟩) 0 ⟨0, 0⟩ ⟨10, -20⟩
    rfl rfl).1
  rw [h]
  show (⟨0 + ((-20 : ℝ) - 0) * 0.01, 0 + ((10 : ℝ) - 0) * 0.01⟩ : Camera) = ⟨-0.2, 0.1⟩
  norm_num

/-- C5 counterexample: start a pinch with contacts at distance 0.5 and move to
distance 1. The code computes `zoom = clamp(1 · 1/max(1, 0.5)) = 1`, while the
claimed formula `clamp(startZoom · dist/startDist) = clamp(1 · 1/0.5)`
yields 2. -/
theorem pinch_zoom_counterexample :
    (onPointerMove (onPointerDown (onPointerDown ⟨[], false, ⟨0, 0⟩, none, ⟨0, 0⟩, 1⟩
        0 ⟨0, 0⟩) 1 ⟨0.3, 0.4⟩) 1 ⟨0.6, 0.8⟩).zoom = 1 ∧
    (onPointerDown (onPointerDown ⟨[], false, ⟨0, 0⟩, none, ⟨0, 0⟩, 1⟩ 0 ⟨0, 0⟩)
        1 ⟨0.3, 0.4⟩).pinch = some (0.5, 1) ∧
    hypot (0 - 0.6) (0 - 0.8) = 1 ∧
    max 0.1 (min 5 ((1 : ℝ) * (hypot (0 - 0.6) (0 - 0.8) / 0.5))) = 2 ∧
    (1 : ℝ) ≠ 2 := by
  have hsd : hypot (0 - 0.3) (0 - 0.4) = 0.5 := by
    unfold hypot
    rw [show ((0 : ℝ) - 0.3) * ((0 : ℝ) - 0.3) + ((0 : ℝ) - 0.4) * ((0 : ℝ) - 0.4) =
      0.5 ^ 2 by norm_num]
    exact Real.sqrt_sq (by norm_num)
  have hdist : hypot (0 - 0.6) (0 - 0.8) = 1 := by
    unfold hypot
    rw [show ((0 : ℝ) - 0.6) * ((0 : ℝ) - 0.6) + ((0 : ℝ) - 0.8) * ((0 : ℝ) - 0.8) =
      1 ^ 2 by norm_num]
    exact Real.sqrt_sq (by norm_num)
  have hs2 : onPointerDown (onPointerDown ⟨[], false, ⟨0, 0⟩, none, ⟨0, 0⟩, 1⟩
      0 ⟨0, 0⟩) 1 ⟨0.3, 0.4⟩ =
      ⟨[(0, ⟨0, 0⟩), (1, ⟨0.3, 0.4⟩)], true, ⟨0, 0⟩,
        some (hypot (0 - 0.3) (0 - 0.4), 1), ⟨0, 0⟩, 1⟩ := rfl
  refine ⟨?_, ?_, hdist, ?_, by norm_num⟩
  · rw [hs2]
    show max 0.1 (min 5 (1 * (hypot (0 - 0.6) (0 - 0.8) /
      max 1 (hypot (0 - 0.3) (0 - 0.4))))) = 1
    rw [hsd, hdist, show max (1 : ℝ) 0.5 = 1 from max_eq_left (by norm_num),
      show (1 : ℝ) * (1 / 1) = 1 by norm_num,
      show min (5 : ℝ) 1 = 1 from min_eq_right (by norm_num)]
    exact max_eq_right (by norm_num)
  · rw [hs2, hsd]
  · rw [hdist, show (1 : ℝ) * (1 / 0.5) = 2 by norm_num,
      show min (5 : ℝ) 2 = 2 from min_eq_right (by norm_num)]
    exact max_eq_right (by norm_num)

/-- C5 (amended): during a pinch gesture (two active contacts and a recorded
baseline), a move event sets
`zoom = clamp(startZoom · currentDistance / max(1, startDistance), 0.1, 5)` —
the code guards the denominator with `max(1, ·)` — and leaves the rotation
unchanged. -/
theorem pinch_zoom_amended_spec (st : CanvasState) (id : ℕ) (pos : Pos)
    (a b : ℕ × Pos) (sd sz : ℝ)
    (hmem : (st.pointers.any fun e => e.1 == id) = true)
    (hptrs : setPointer st.pointers id pos = [a, b])
    (hpinch : st.pinch = some (sd, sz)) :
    (onPointerMove st id pos).zoom =
      max 0.1 (min 5 (sz * (hypot (a.2.x - b.2.x) (a.2.y - b.2.y) / max 1 sd))) ∧
    (onPointerMove st id pos).rotation = st.rotation := by
  simp [onPointerMove, hmem, hptrs, hpinch]

/-- Witness for C5 (amended) at a concrete two-contact state. -/
theorem pinch_zoom_amended_witness :
    (onPointerMove ⟨[(0, ⟨0, 0⟩), (1, ⟨0, 1⟩)], false, ⟨0, 0⟩, some (2, 1), ⟨0, 0⟩, 1⟩
        1 ⟨0, 2⟩).zoom =
      max 0.1 (min 5 (1 * (hypot (0 - 0) (0 - 2) / max 1 2))) ∧
    (onPointerMove ⟨[(0, ⟨0, 0⟩), (1, ⟨0, 1⟩)], false, ⟨0, 0⟩, some (2, 1), ⟨0, 0⟩, 1⟩
        1 ⟨0, 2⟩).rotation = ⟨0, 0⟩ :=
  pinch_zoom_amended_spec
    ⟨[(0, ⟨0, 0⟩), (1, ⟨0, 1⟩)], false, ⟨0, 0⟩, some (2, 1), ⟨0, 0⟩, 1⟩
    1 ⟨0, 2⟩ (0, ⟨0, 0⟩) (1, ⟨0, 2⟩) 2 1 rfl rfl rfl
